import Mathlib

/-!
Shallow embedding of the `joyofpainting` genetic-painting engine
(`src/genetics.py`, `src/painting.py`, `src/weighted_random.py`).

Conventions of the embedding:
* Python floats are modelled as `ℚ` (the code only adds, multiplies,
  divides and compares them on small values).
* Python exceptions are modelled by `Except PyError`; the `PyError`
  constructors name the Python exception class that would be raised
  (plus `invalidInput`, the specification's error kind, which the code
  never produces).
* Calls into the `random` module are modelled by explicit oracle
  arguments: each random draw is read off a caller-supplied stream, so
  every theorem quantifies over all possible sequences of draws.
  `random.randint(a, b)` applied to oracle value `r` is modelled as
  `a + r % (b - a + 1)`, which ranges exactly over `[a, b]`;
  `random.sample(pool, 2)` is modelled by two oracle values normalised
  to a pair of distinct in-range indices; `random.sample(pool, k)` in
  selection is modelled by an oracle list of indices, with the
  without-replacement conditions (distinct, in range, `k` of them)
  stated as hypotheses; `random.shuffle` is modelled by an oracle index
  list required to be a permutation of the positions.
-/

/-- `Color` namedtuple from `painting.py`: three channel values. -/
structure Color where
  r : Nat
  g : Nat
  b : Nat
deriving DecidableEq, Repr

instance : Inhabited Color := ⟨⟨0, 0, 0⟩⟩

/-- `Vector` from `painting.py`: integer (x, y) pair. -/
structure Vector where
  x : Int
  y : Int
deriving DecidableEq, Repr

instance : Inhabited Vector := ⟨⟨0, 0⟩⟩

/-- `Vector.__add__`. -/
def Vector.add (v w : Vector) : Vector := ⟨v.x + w.x, v.y + w.y⟩

/-- `Vector.scale`. -/
def Vector.scale (v : Vector) (n : Int) : Vector := ⟨v.x * n, v.y * n⟩

/-- `Stroke` from `painting.py` (`end` is a Lean keyword, so the second
endpoint is called `stop` here). -/
structure Stroke where
  color : Color
  brush_size : Nat
  start : Vector
  stop : Vector
deriving DecidableEq, Repr

instance : Inhabited Stroke := ⟨⟨default, 0, default, default⟩⟩

/-- `Painting` from `painting.py`.  The Python object also stores
`num_strokes = len(strokes)` set at construction; no code path resizes
a stroke list, so `strokes.length` stands for it. -/
structure Painting where
  ref : Nat
  canvas : Color
  strokes : List Stroke
deriving DecidableEq, Repr

instance : Inhabited Painting := ⟨⟨0, default, []⟩⟩

/-- Python exception outcomes of the embedded code, plus `invalidInput`,
the error kind named by the specification (never produced by the code). -/
inductive PyError where
  | indexError
  | valueError
  | zeroDivisionError
  | unboundLocalError
  | breedError (msg : String)
  | invalidInput
deriving DecidableEq, Repr

instance {e a : Type} [DecidableEq e] [DecidableEq a] : DecidableEq (Except e a) := fun x y =>
  match x, y with
  | .ok u, .ok v =>
    if h : u = v then .isTrue (by rw [h]) else .isFalse (by intro hc; cases hc; exact h rfl)
  | .ok _, .error _ => .isFalse (by intro hc; cases hc)
  | .error _, .ok _ => .isFalse (by intro hc; cases hc)
  | .error u, .error v =>
    if h : u = v then .isTrue (by rw [h]) else .isFalse (by intro hc; cases hc; exact h rfl)

/-- Python `int()` applied to a rational: truncation toward zero. -/
def pyInt (q : ℚ) : Int := Int.tdiv q.num q.den

/-- Sequential effectful map, the direct picture of a Python
`for`-loop that appends one element per iteration and lets exceptions
propagate. -/
def mapME (f : α → Except PyError β) : List α → Except PyError (List β)
  | [] => .ok []
  | a :: t =>
    match f a with
    | .error e => .error e
    | .ok b =>
      match mapME f t with
      | .error e => .error e
      | .ok bs => .ok (b :: bs)

/-- `bisect.bisect_right` on a sorted list: the number of elements `≤ x`
(equivalently, the index of the first element exceeding `x`). -/
def bisect_right (l : List ℚ) (x : ℚ) : Nat := l.countP (fun t => decide (t ≤ x))

/-- `WeightedRandomColors` from `weighted_random.py`: parallel arrays of
cumulative totals and colors. -/
structure WeightedRandomColors where
  totals : List Nat
  colors : List Color
deriving DecidableEq, Repr

/-- `WeightedRandomColors.__init__`: accumulate running totals.
Construction is total: an empty weight list yields empty arrays. -/
def WeightedRandomColors.init (color_weights : List (Color × Nat)) : WeightedRandomColors :=
  { totals := ((color_weights.map (fun p => p.2)).scanl (· + ·) 0).tail
    colors := color_weights.map (fun p => p.1) }

/-- `WeightedRandomColors.next`.  The Python code draws
`rnd = random.random() * self.totals[-1]`; here the already-scaled draw
value `rnd` is the oracle.  `totals[-1]` on an empty list raises
`IndexError`, as does the final `colors[ind]` when `ind` is out of
range. -/
def WeightedRandomColors.next (w : WeightedRandomColors) (rnd : ℚ) : Except PyError Color :=
  match w.totals.getLast? with
  | none => .error .indexError
  | some _ =>
    match w.colors[bisect_right (w.totals.map (fun t => (t : ℚ))) rnd]? with
    | none => .error .indexError
    | some c => .ok c

/-- `genetics.py` `GeneticPainting.__init__` lines 58–63: filter the
pixel histogram to colors with count > 1 and sort ascending by count
(`sorted(..., key=itemgetter(1))`, a stable sort). -/
def filteredColorWeights (hist : List (Color × Nat)) : List (Color × Nat) :=
  (hist.filter (fun p => decide (1 < p.2))).mergeSort (fun a b => decide (a.2 ≤ b.2))

/-- Building the sampler exactly as `GeneticPainting.__init__` does,
from a color→count histogram. -/
def buildSampler (hist : List (Color × Nat)) : WeightedRandomColors :=
  WeightedRandomColors.init (filteredColorWeights hist)

def RED : Color := ⟨255, 0, 0⟩
def BLUE : Color := ⟨0, 0, 255⟩
def GREEN : Color := ⟨0, 255, 0⟩

/-- `Painting.__mul__` from `painting.py`: position-wise crossover.
`pickCanvas`/`pickStroke` are the `random.choice` draws (`true` picks
`self` = `a`).  Indexing `other.strokes[i]` out of range raises
`IndexError`. -/
def Painting.mul (a b : Painting) (pickCanvas : Bool) (pickStroke : Nat → Bool) :
    Except PyError Painting :=
  let canvas := if pickCanvas then a.canvas else b.canvas
  match mapME (fun i =>
      match (if pickStroke i then a.strokes else b.strokes)[i]? with
      | some s => .ok s
      | none => .error .indexError) (List.range a.strokes.length) with
  | .ok strokes => .ok ⟨a.ref, canvas, strokes⟩
  | .error e => .error e

/-- Layout strategy drawn in `Painting.generate`
(`random.choice([HORIZONTAL, VERTICAL, RANDOM])`). -/
inductive Strategy where
  | horizontal
  | vertical
  | srandom
deriving DecidableEq, Repr

/-- The random draws consumed by one call of `Painting.generate`. -/
structure GenOracle where
  brush : Nat
  dist : Nat
  startX : Nat → Nat
  startY : Nat → Nat
  offX : Nat → Nat
  offY : Nat → Nat
  colorRnd : Nat → ℚ

/-- `brush_size = random.randint(2, 12)`. -/
def brushOf (o : GenOracle) : Nat := 2 + o.brush % 11

/-- `distance = random.randint(5, 200)`. -/
def distOf (o : GenOracle) : Nat := 5 + o.dist % 196

/-- `num_lines = h // (2 * brush_size)` of the HORIZONTAL branch. -/
def numLinesH (h : Nat) (o : GenOracle) : Int :=
  Int.fdiv (h : Int) (2 * (brushOf o : Int))

/-- `strokes_per_line = num_strokes // num_lines` of the HORIZONTAL
branch. -/
def strokesPerLineH (h num_strokes : Nat) (o : GenOracle) : Int :=
  Int.fdiv (num_strokes : Int) (numLinesH h o)

/-- `num_lines = w // (2 * brush_size)` of the VERTICAL branch. -/
def numLinesV (w : Nat) (o : GenOracle) : Int :=
  Int.fdiv (w : Int) (2 * (brushOf o : Int))

/-- `strokes_per_line = num_strokes // num_lines` of the VERTICAL
branch. -/
def strokesPerLineV (w num_strokes : Nat) (o : GenOracle) : Int :=
  Int.fdiv (num_strokes : Int) (numLinesV w o)

/-- `Painting.generate` from `painting.py`.  Python `//` and `%` are
`Int.fdiv`/`Int.fmod`.  A division by zero (`num_lines == 0` or
`strokes_per_line == 0`) raises `ZeroDivisionError` exactly where the
Python expression divides.  The RANDOM branch computes a
`stroke_length = random.randint(0, int((w**2 + h**2)**.5))` that no
later code reads; that dead draw is not modelled. -/
def Painting.generate (ref w h : Nat) (weights : WeightedRandomColors) (canvas : Color)
    (num_strokes : Nat) (strategy : Strategy) (o : GenOracle) : Except PyError Painting :=
  let bs : Int := (brushOf o : Int)
  match strategy with
  | .horizontal =>
    if numLinesH h o = 0 then .error .zeroDivisionError
    else if strokesPerLineH h num_strokes o = 0 then .error .zeroDivisionError
    else
      let spl := strokesPerLineH h num_strokes o
      let stroke_length : Int := max (Int.fdiv (w : Int) spl - 2 * bs) 0
      match mapME (fun (i : Nat) =>
          let move_x := Int.fmod (i : Int) spl
          let move_y := Int.fdiv (i : Int) spl
          let start : Vector :=
            ⟨move_x * stroke_length + bs * (2 * move_x + 1), bs * (2 * move_y + 1)⟩
          let fin := start.add ((Vector.mk 1 0).scale stroke_length)
          match weights.next (o.colorRnd i) with
          | .error e => .error e
          | .ok c => .ok (Stroke.mk c (brushOf o) start fin)) (List.range num_strokes) with
      | .ok strokes => .ok ⟨ref, canvas, strokes⟩
      | .error e => .error e
  | .vertical =>
    if numLinesV w o = 0 then .error .zeroDivisionError
    else if strokesPerLineV w num_strokes o = 0 then .error .zeroDivisionError
    else
      let spl := strokesPerLineV w num_strokes o
      let stroke_length : Int := max (Int.fdiv (h : Int) spl - 2 * bs) 0
      match mapME (fun (i : Nat) =>
          let move_x := Int.fdiv (i : Int) spl
          let move_y := Int.fmod (i : Int) spl
          let start : Vector :=
            ⟨bs * (2 * move_x + 1), move_y * stroke_length + bs * (2 * move_y + 1)⟩
          let fin := start.add ((Vector.mk 0 1).scale stroke_length)
          match weights.next (o.colorRnd i) with
          | .error e => .error e
          | .ok c => .ok (Stroke.mk c (brushOf o) start fin)) (List.range num_strokes) with
      | .ok strokes => .ok ⟨ref, canvas, strokes⟩
      | .error e => .error e
  | .srandom =>
    let d : Int := (distOf o : Int)
    match mapME (fun i =>
        let sx : Int := ((o.startX i) % (w + 1) : Nat)
        let sy : Int := ((o.startY i) % (h + 1) : Nat)
        let rand_x : Int := sx - d + ((o.offX i) % (2 * distOf o + 1) : Nat)
        let rand_y : Int := sy - d + ((o.offY i) % (2 * distOf o + 1) : Nat)
        let fin : Vector := ⟨min rand_x (w : Int), min rand_y (h : Int)⟩
        match weights.next (o.colorRnd i) with
        | .error e => .error e
        | .ok c => .ok (Stroke.mk c (brushOf o) ⟨sx, sy⟩ fin)) (List.range num_strokes) with
    | .ok strokes => .ok ⟨ref, canvas, strokes⟩
    | .error e => .error e

/-- `ScoredPainting` namedtuple from `genetics.py`. -/
structure ScoredPainting where
  score : ℚ
  painting : Painting
  gen_id : Nat
deriving DecidableEq, Repr

instance : Inhabited ScoredPainting := ⟨⟨0, default, 0⟩⟩

/-- Strategy string constants from `genetics.py`:
`SPAN, RANDOM, SURVIVORS = 'span', 'random', 'survivors'`. -/
def SPAN : String := "span"

def RANDOM : String := "random"

def SURVIVORS : String := "survivors"

/-- The state of a `GeneticPainting` object (`genetics.py`); the PIL
image is represented by its size `(w, h)`, its pixel data having been
consumed into `weights`/`canvas` at construction. -/
structure GPState where
  ref : Nat
  w : Nat
  h : Nat
  num_strokes : Nat
  pop_size : Nat
  mutation_chance : ℚ
  fit_percentage : ℚ
  lucky_few : Nat
  generation : Nat
  num_children : Nat
  canvas : Color
  weights : WeightedRandomColors
  population : List Painting
deriving DecidableEq, Repr

/-- `winners = int(self.pop_size * self.fit_percentage)` computed inside
`cull_the_herd` (Python `int()` truncates toward zero; the result is
clamped to `Nat` as Python list slicing of the nonnegative regime is
what follows). -/
def winnersOf (st : GPState) : Nat := (pyInt ((st.pop_size : ℚ) * st.fit_percentage)).toNat

/-- Python slice `l[-n:]`: for `n = 0` this is `l[0:] = l` (the whole
list), otherwise the last `n` elements. -/
def sliceLastN (l : List α) (n : Nat) : List α :=
  if n = 0 then l else l.drop (l.length - n)

/-- `random.sample(l, k)` with the draw modelled by an oracle list of
positions.  Python raises `ValueError` when `k` exceeds the population
size; a without-replacement draw corresponds to an oracle of `k`
distinct in-range positions, which theorems assume. -/
def pySample [Inhabited α] (l : List α) (k : Nat) (idxs : List Nat) : Except PyError (List α) :=
  if l.length < k then .error .valueError
  else .ok (idxs.map (fun i => l.getD i default))

/-- `sorted(scored_generation, key=itemgetter(0))`: stable sort
ascending by score. -/
def sortScored (scored : List ScoredPainting) : List ScoredPainting :=
  scored.mergeSort (fun a b => decide (a.score ≤ b.score))

/-- `GeneticPainting._generate_painting`. -/
def GPState.generatePainting (st : GPState) (strat : Strategy) (o : GenOracle) :
    Except PyError Painting :=
  Painting.generate st.ref st.w st.h st.weights st.canvas st.num_strokes strat o

/-- `GeneticPainting.cull_the_herd`.  `luckyIdxs` is the
`random.sample` oracle of the SURVIVORS branch; `strats`/`gor` feed the
fresh paintings of the RANDOM branch.  With any other strategy neither
branch assigns `additions`, and `survivors.extend(additions)` raises
`UnboundLocalError`. -/
def cull_the_herd (st : GPState) (scored : List ScoredPainting) (strategy : String)
    (luckyIdxs : List Nat) (strats : Nat → Strategy) (gor : Nat → GenOracle) :
    Except PyError (List Painting) :=
  let winners := winnersOf st
  let sorted_pop := sortScored scored
  let survivors := sliceLastN sorted_pop winners
  if strategy = SURVIVORS then
    match pySample (sorted_pop.take winners) st.lucky_few luckyIdxs with
    | .ok additions => .ok ((survivors ++ additions).map ScoredPainting.painting)
    | .error e => .error e
  else if strategy = RANDOM then
    match mapME (fun k =>
        match st.generatePainting (strats k) (gor k) with
        | .ok p => .ok (ScoredPainting.mk 0 p 0)
        | .error e => .error e) (List.range st.lucky_few) with
    | .ok additions => .ok ((survivors ++ additions).map ScoredPainting.painting)
    | .error e => .error e
  else .error .unboundLocalError

/-- `applyPerm idxs l`: reading `l` at the positions `idxs`; with
`idxs` a permutation of the positions this is an in-place
`random.shuffle` outcome. -/
def applyPerm (idxs : List Nat) (l : List Stroke) : List Stroke :=
  idxs.map (fun i => l.getD i default)

/-- `GeneticPainting.mutate`: for each genome, if its `random.random()`
roll is below `mutation_chance`, shuffle its stroke order in place.
`roll k` is the k-th roll, `shuf k` the shuffle oracle. -/
def GeneticPainting.mutate (st : GPState) (roll : Nat → ℚ) (shuf : Nat → List Nat) : GPState :=
  { st with
    population := (List.range st.population.length).map (fun k =>
      let p := st.population.getD k default
      if roll k < st.mutation_chance then
        { p with strokes := applyPerm (shuf k) p.strokes }
      else p) }

/-- `random.sample(l, 2)`: two raw oracle values normalised to a pair
of distinct in-range positions.  Python raises `ValueError` when the
population has fewer than two elements. -/
def sample2 [Inhabited α] (l : List α) (r1 r2 : Nat) : Except PyError (α × α) :=
  if 2 ≤ l.length then
    let i := r1 % l.length
    let j0 := r2 % (l.length - 1)
    let j := if j0 < i then j0 else j0 + 1
    .ok (l.getD i default, l.getD j default)
  else .error .valueError

/-- The random draws consumed by one `GeneticPainting.breed` call:
per-(pair, child) crossover draws for the SPAN nested loop, and
per-iteration pair/crossover draws for the `random.sample` loops. -/
structure BreedOracle where
  spanCanvas : Nat → Nat → Bool
  spanStroke : Nat → Nat → Nat → Bool
  pairA : Nat → Nat
  pairB : Nat → Nat
  upCanvas : Nat → Bool
  upStroke : Nat → Nat → Bool

/-- Loop body of the `random.sample(breeders, 2)` loops of
`GeneticPainting.breed`: sample a pair of distinct breeders and
recombine them (`parent1 * parent2`). -/
def randomPairChild (breeders : List Painting) (o : BreedOracle) (k : Nat) :
    Except PyError Painting :=
  match sample2 breeders (o.pairA k) (o.pairB k) with
  | .error e => .error e
  | .ok pq => pq.1.mul pq.2 (o.upCanvas k) (o.upStroke k)

/-- Inner loop body of the SPAN branch of `GeneticPainting.breed`:
`parent1 = breeders[i]`, `parent2 = breeders[len(breeders) - (i + 1)]`,
one child per inner iteration `c`. -/
def spanChild (breeders : List Painting) (o : BreedOracle) (i c : Nat) :
    Except PyError Painting :=
  (breeders.getD i default).mul (breeders.getD (breeders.length - (i + 1)) default)
    (o.spanCanvas i c) (o.spanStroke i c)

/-- `GeneticPainting.breed`.  Returns the state after the call together
with the Python return value or exception: the unsupported-strategy
branch raises `BreedError` before any state change; the successful
branches assign `self.population` and increment `self.generation`. -/
def GeneticPainting.breed (st : GPState) (breeders : List Painting) (strategy : String)
    (o : BreedOracle) : GPState × Except PyError (List Painting) :=
  if strategy = RANDOM then
    match mapME (randomPairChild breeders o) (List.range st.pop_size) with
    | .error e => (st, .error e)
    | .ok next =>
      ({ st with population := next, generation := st.generation + 1 }, .ok next)
  else if strategy = SPAN then
    match mapME (fun i => mapME (spanChild breeders o i) (List.range st.num_children))
        (List.range (breeders.length / 2)) with
    | .error e => (st, .error e)
    | .ok chunks =>
      let phase1 := chunks.flatten
      match mapME (randomPairChild breeders o) (List.range (st.pop_size - phase1.length)) with
      | .error e => (st, .error e)
      | .ok topups =>
        let next := (phase1 ++ topups).take st.pop_size
        ({ st with population := next, generation := st.generation + 1 }, .ok next)
  else (st, .error (.breedError ("Unsupported breeding strategy: " ++ strategy)))

/-- Distinct colors of a pixel list in first-occurrence order
(the iteration order of `collections.Counter(image_data).items()`). -/
def firstOccs : List Color → List Color
  | [] => []
  | c :: rest => c :: firstOccs (rest.filter (fun d => decide (d ≠ c)))
termination_by l => l.length
decreasing_by
  simp only [List.length_cons]
  exact Nat.lt_succ_of_le (List.length_filter_le _ _)

/-- `Counter(image_data).items()` as a color→count association list. -/
def counterItems (l : List Color) : List (Color × Nat) :=
  (firstOccs l).map (fun c => (c, l.count c))

/-- `GeneticPainting.__init__`.  The pixel data of the PIL image is the
`image_data` list; `strats`/`gor` are the random draws of the initial
`create_population`.  In source order: `lucky_few = ceil(pop_size *
lucky_percentage)`, then `num_children = int(pop_size // (pop_size *
fit_percentage + lucky_few))` (a `ZeroDivisionError` when the
denominator is zero), then the histogram is filtered/sorted, the most
common color `color_weights[-1][0]` is taken as canvas (an `IndexError`
when the filtered histogram is empty), the sampler is built, and
`pop_size` paintings are generated. -/
def GeneticPainting.init (ref w h num_strokes pop_size : Nat)
    (mutation_chance fit_percentage lucky_percentage : ℚ)
    (image_data : List Color) (strats : Nat → Strategy) (gor : Nat → GenOracle) :
    Except PyError GPState :=
  let lucky_few : Nat := (⌈(pop_size : ℚ) * lucky_percentage⌉).toNat
  if (pop_size : ℚ) * fit_percentage + (lucky_few : ℚ) = 0 then .error .zeroDivisionError
  else
    let num_children : Nat :=
      (⌊(pop_size : ℚ) / ((pop_size : ℚ) * fit_percentage + (lucky_few : ℚ))⌋).toNat
    let color_weights := filteredColorWeights (counterItems image_data)
    match color_weights.getLast? with
    | none => .error .indexError
    | some last =>
      let canvas := last.1
      let weights := WeightedRandomColors.init color_weights
      match mapME (fun i =>
          Painting.generate ref w h weights canvas num_strokes (strats i) (gor i))
          (List.range pop_size) with
      | .error e => .error e
      | .ok pop =>
        .ok ⟨ref, w, h, num_strokes, pop_size, mutation_chance, fit_percentage,
          lucky_few, 0, num_children, canvas, weights, pop⟩

/-- A heap of `Painting` objects, for stating frame properties of
`Painting.__mul__`: Python object identity is a position in the list. -/
structure Store where
  paintings : List Painting
deriving DecidableEq, Repr

/-- `Painting.__mul__` acting on the heap: read the two parents,
construct the child, and allocate it at a fresh position.  No existing
entry is written. -/
def mulAlloc (s : Store) (ia ib : Nat) (pickCanvas : Bool) (pickStroke : Nat → Bool) :
    Except PyError (Store × Nat) :=
  match s.paintings[ia]?, s.paintings[ib]? with
  | some a, some b =>
    match a.mul b pickCanvas pickStroke with
    | .ok c => .ok (⟨s.paintings ++ [c]⟩, s.paintings.length)
    | .error e => .error e
  | _, _ => .error .indexError

/-- Success precondition of `Painting.generate` for a given layout
strategy: the two integer divisions of the HORIZONTAL/VERTICAL grid
computation must have nonzero divisors; the RANDOM layout needs
nothing. -/
def genPrecond (w h num_strokes : Nat) (strategy : Strategy) (o : GenOracle) : Prop :=
  match strategy with
  | .horizontal => numLinesH h o ≠ 0 ∧ strokesPerLineH h num_strokes o ≠ 0
  | .vertical => numLinesV w o ≠ 0 ∧ strokesPerLineV w num_strokes o ≠ 0
  | .srandom => True

/-! Concrete sample data used by witnesses and counterexamples. -/

def sA : Stroke := ⟨RED, 2, ⟨0, 0⟩, ⟨1, 0⟩⟩

def sB : Stroke := ⟨BLUE, 3, ⟨0, 1⟩, ⟨1, 1⟩⟩

def pA : Painting := ⟨7, RED, [sA]⟩

def pB : Painting := ⟨7, BLUE, [sB]⟩

/-- A concrete `Painting.generate` oracle (all draws zero). -/
def oG : GenOracle := ⟨0, 0, fun _ => 0, fun _ => 0, fun _ => 0, fun _ => 0, fun _ => 0⟩

/-- A concrete `breed` oracle. -/
def oW : BreedOracle :=
  ⟨fun _ _ => true, fun _ _ _ => true, fun _ => 0, fun _ => 0, fun _ => true, fun _ _ => true⟩

/-- A concrete engine state with an empty population. -/
def stW : GPState := ⟨0, 0, 0, 0, 0, 0, 0, 0, 0, 0, default, ⟨[], []⟩, []⟩

/-- A concrete engine state: `pop_size = 1`, `fit_percentage = 1`,
`lucky_few = 1` (so one winner and one lucky survivor). -/
def stC : GPState := ⟨0, 0, 0, 0, 1, 0, 1, 1, 0, 0, default, ⟨[], []⟩, []⟩

/-- A concrete engine state: `pop_size = 2`, `num_children = 1`,
`mutation_chance = 1`, population `[pA]`. -/
def stB : GPState := ⟨0, 0, 0, 0, 2, 1, 1, 1, 0, 1, default, ⟨[], []⟩, [pA]⟩

/-! ## Helper lemmas -/

/-- A `mapME` whose every step succeeds succeeds, with the element-wise
correspondence recorded as a `Forall₂`. -/
theorem mapME_ok_of_forall {f : α → Except PyError β} :
    ∀ {l : List α}, (∀ x ∈ l, ∃ y, f x = .ok y) →
      ∃ ys, mapME f l = .ok ys ∧ List.Forall₂ (fun x y => f x = .ok y) l ys := by
  intro l
  induction l with
  | nil => intro _; exact ⟨[], rfl, List.Forall₂.nil⟩
  | cons a t ih =>
    intro hall
    obtain ⟨b, hb⟩ := hall a (by simp)
    obtain ⟨ys, hys, hfa⟩ := ih (fun x hx => hall x (by simp [hx]))
    exact ⟨b :: ys, by simp [mapME, hb, hys], List.Forall₂.cons hb hfa⟩

/-- Reading a list at each position in order reproduces the list. -/
theorem map_getD_range {α : Type} [Inhabited α] (l : List α) :
    (List.range l.length).map (fun i => l.getD i default) = l := by
  apply List.ext_getElem
  · simp
  · intro i h1 h2
    simp [List.getD_eq_getElem?_getD, List.getElem?_eq_getElem h2]

/-- `getD` at an in-range position is a member. -/
theorem getD_mem_of_lt {α : Type} [Inhabited α] (l : List α) (i : Nat) (h : i < l.length) :
    l.getD i default ∈ l := by
  rw [List.getD_eq_getElem?_getD, List.getElem?_eq_getElem h]
  exact List.getElem_mem h

/-- Specification of `Painting.__mul__` on parents of equal stroke
count: it succeeds and performs position-wise crossover. -/
theorem mul_spec (a b : Painting) (pickCanvas : Bool) (pickStroke : Nat → Bool)
    (h : a.strokes.length = b.strokes.length) :
    ∃ c, a.mul b pickCanvas pickStroke = .ok c ∧
      c.ref = a.ref ∧
      (c.canvas = a.canvas ∨ c.canvas = b.canvas) ∧
      c.strokes.length = a.strokes.length ∧
      ∀ i, i < a.strokes.length →
        c.strokes[i]? = a.strokes[i]? ∨ c.strokes[i]? = b.strokes[i]? := by
  have hstep : ∀ x ∈ List.range a.strokes.length, ∃ y,
      (match (if pickStroke x then a.strokes else b.strokes)[x]? with
       | some s => Except.ok s
       | none => Except.error PyError.indexError) = Except.ok (ε := PyError) y := by
    intro x hx
    have hx1 : x < a.strokes.length := List.mem_range.mp hx
    by_cases hp : pickStroke x
    · exact ⟨a.strokes[x], by simp [hp, List.getElem?_eq_getElem hx1]⟩
    · have hx2 : x < b.strokes.length := h ▸ hx1
      exact ⟨b.strokes[x], by simp [hp, List.getElem?_eq_getElem hx2]⟩
  obtain ⟨ys, hys, hfa⟩ := mapME_ok_of_forall hstep
  obtain ⟨hlen, hget⟩ := List.forall₂_iff_get.mp hfa
  have hylen : ys.length = a.strokes.length := by simpa using hlen.symm
  refine ⟨⟨a.ref, if pickCanvas then a.canvas else b.canvas, ys⟩, ?_, rfl, ?_, hylen, ?_⟩
  · simp only [Painting.mul, hys]
  · by_cases hp : pickCanvas <;> simp [hp]
  · intro i hi
    have h1 : i < (List.range a.strokes.length).length := by simpa using hi
    have h2 : i < ys.length := by omega
    have hfi := hget i h1 h2
    simp only [List.get_eq_getElem, List.getElem_range] at hfi
    by_cases hp : pickStroke i
    · left
      simp [hp, List.getElem?_eq_getElem hi] at hfi
      simp [List.getElem?_eq_getElem h2, List.getElem?_eq_getElem hi, hfi]
    · right
      have hi2 : i < b.strokes.length := h ▸ hi
      simp [hp, List.getElem?_eq_getElem hi2] at hfi
      simp [List.getElem?_eq_getElem h2, List.getElem?_eq_getElem hi2, hfi]

/-- `sample2` on a population of at least two elements succeeds and
returns two members. -/
theorem sample2_mem {α : Type} [Inhabited α] (l : List α) (r1 r2 : Nat) (h : 2 ≤ l.length) :
    ∃ p q, sample2 l r1 r2 = .ok (p, q) ∧ p ∈ l ∧ q ∈ l := by
  have hpos : 0 < l.length := by omega
  have hi : r1 % l.length < l.length := Nat.mod_lt _ hpos
  have hj0 : r2 % (l.length - 1) < l.length - 1 := Nat.mod_lt _ (by omega)
  refine ⟨l.getD (r1 % l.length) default,
    l.getD (if r2 % (l.length - 1) < r1 % l.length then r2 % (l.length - 1)
            else r2 % (l.length - 1) + 1) default, ?_, ?_, ?_⟩
  · simp only [sample2, if_pos h]
  · exact getD_mem_of_lt l _ hi
  · by_cases hlt : r2 % (l.length - 1) < r1 % l.length
    · rw [if_pos hlt]
      exact getD_mem_of_lt l _ (by omega)
    · rw [if_neg hlt]
      exact getD_mem_of_lt l _ (by omega)

/-! ## Claim theorems -/

/-- Claim C5: for all genomes `a` and `b` with equally many strokes,
recombination (`Painting.__mul__`) returns a child whose stroke count
equals `a`'s, whose `reference_id` equals `a`'s, whose canvas color is
one of the two parents' canvases, and whose stroke at every index `i`
is one of the two parents' strokes at `i` (position-wise crossover). -/
theorem recombine_spec (a b : Painting) (pickCanvas : Bool) (pickStroke : Nat → Bool)
    (h : a.strokes.length = b.strokes.length) :
    ∃ c, a.mul b pickCanvas pickStroke = .ok c ∧
      c.strokes.length = a.strokes.length ∧ c.ref = a.ref ∧
      (c.canvas = a.canvas ∨ c.canvas = b.canvas) ∧
      ∀ i, i < a.strokes.length →
        c.strokes[i]? = a.strokes[i]? ∨ c.strokes[i]? = b.strokes[i]? := by
  obtain ⟨c, h1, h2, h3, h4, h5⟩ := mul_spec a b pickCanvas pickStroke h
  exact ⟨c, h1, h4, h2, h3, h5⟩

/-- Witness for C5 at the concrete parents `pA`, `pB`. -/
theorem recombine_spec_witness :
    pA.strokes.length = pB.strokes.length ∧
    (∃ c, pA.mul pB true (fun _ => true) = .ok c ∧
      c.strokes.length = pA.strokes.length ∧ c.ref = pA.ref ∧
      (c.canvas = pA.canvas ∨ c.canvas = pB.canvas) ∧
      ∀ i, i < pA.strokes.length →
        c.strokes[i]? = pA.strokes[i]? ∨ c.strokes[i]? = pB.strokes[i]?) :=
  ⟨by decide, recombine_spec pA pB true (fun _ => true) (by decide)⟩

/-- Claim C10: recombination acting on the heap never modifies an
existing `Painting` object: every pre-existing heap entry (in
particular both parents) is unchanged, and the child is allocated at a
fresh position. -/
theorem mul_frame (s : Store) (ia ib : Nat) (pickCanvas : Bool) (pickStroke : Nat → Bool)
    (t : Store) (idx : Nat) (h : mulAlloc s ia ib pickCanvas pickStroke = .ok (t, idx)) :
    t.paintings.take s.paintings.length = s.paintings ∧
    (∀ k, k < s.paintings.length → t.paintings[k]? = s.paintings[k]?) ∧
    idx = s.paintings.length ∧ t.paintings.length = s.paintings.length + 1 := by
  unfold mulAlloc at h
  split at h
  case _ a b ha hb =>
    split at h
    case _ c hc =>
      cases h
      refine ⟨List.take_left _ _, ?_, rfl, by simp⟩
      intro k hk
      exact List.getElem?_append_left hk
    case _ => cases h
  case _ => cases h

/-- Witness for C10: a two-painting heap; the child lands at position 2
and the two parents are untouched. -/
theorem mul_frame_witness :
    mulAlloc ⟨[pA, pB]⟩ 0 1 true (fun _ => false) = .ok (⟨[pA, pB, ⟨7, RED, [sB]⟩]⟩, 2) ∧
    ((⟨[pA, pB, ⟨7, RED, [sB]⟩]⟩ : Store).paintings.take
        (⟨[pA, pB]⟩ : Store).paintings.length = (⟨[pA, pB]⟩ : Store).paintings ∧
      (∀ k, k < (⟨[pA, pB]⟩ : Store).paintings.length →
        (⟨[pA, pB, ⟨7, RED, [sB]⟩]⟩ : Store).paintings[k]? =
          (⟨[pA, pB]⟩ : Store).paintings[k]?) ∧
      2 = (⟨[pA, pB]⟩ : Store).paintings.length ∧
      (⟨[pA, pB, ⟨7, RED, [sB]⟩]⟩ : Store).paintings.length =
        (⟨[pA, pB]⟩ : Store).paintings.length + 1) :=
  ⟨by decide, mul_frame ⟨[pA, pB]⟩ 0 1 true (fun _ => false) _ _ (by decide)⟩

/-- Claim C7: `breed` with any strategy other than SPAN or RANDOM fails
with the unsupported-strategy error (`BreedError`) and leaves the
population and generation counter exactly as they were. -/
theorem breed_unsupported (st : GPState) (breeders : List Painting) (strategy : String)
    (o : BreedOracle) (h1 : strategy ≠ SPAN) (h2 : strategy ≠ RANDOM) :
    GeneticPainting.breed st breeders strategy o =
      (st, .error (.breedError ("Unsupported breeding strategy: " ++ strategy))) ∧
    (GeneticPainting.breed st breeders strategy o).1.population = st.population ∧
    (GeneticPainting.breed st breeders strategy o).1.generation = st.generation := by
  have hmain : GeneticPainting.breed st breeders strategy o =
      (st, .error (.breedError ("Unsupported breeding strategy: " ++ strategy))) := by
    unfold GeneticPainting.breed
    rw [if_neg h2, if_neg h1]
  exact ⟨hmain, by rw [hmain], by rw [hmain]⟩

/-- Witness for C7 at the strategy string `"zigzag"`. -/
theorem breed_unsupported_witness :
    ("zigzag" ≠ SPAN) ∧ ("zigzag" ≠ RANDOM) ∧
    (GeneticPainting.breed stW [] "zigzag" oW =
        (stW, .error (.breedError ("Unsupported breeding strategy: " ++ "zigzag"))) ∧
      (GeneticPainting.breed stW [] "zigzag" oW).1.population = stW.population ∧
      (GeneticPainting.breed stW [] "zigzag" oW).1.generation = stW.generation) :=
  ⟨by decide, by decide, breed_unsupported stW [] "zigzag" oW (by decide) (by decide)⟩

/-- Claim C8 (evaluation at the failing input): `cull_the_herd` with
the unrecognized strategy `"zigzag"` raises `UnboundLocalError`
(`additions` is referenced before assignment when neither branch runs)
rather than an unsupported-strategy error. -/
theorem cull_unsupported_eval :
    cull_the_herd stW [] "zigzag" [] (fun _ => Strategy.srandom) (fun _ => oG) =
      .error .unboundLocalError := by
  decide

unseal List.mergeSort List.merge in
/-- Claim C3 counterexample: for the histogram `{RED:5, BLUE:3,
GREEN:1}`, the sampler built by the code (which sorts *ascending* by
count, so BLUE comes first) has cumulative totals `[3, 8]`, not
`[5, 8]`, and a draw value of `7.9` resolves to RED, not BLUE. -/
theorem sampler_scenario_counterexample :
    (buildSampler [(RED, 5), (BLUE, 3), (GREEN, 1)]).totals ≠ [5, 8] ∧
    (buildSampler [(RED, 5), (BLUE, 3), (GREEN, 1)]).next (79 / 10 : ℚ) ≠ .ok BLUE := by
  have hfw : filteredColorWeights [(RED, 5), (BLUE, 3), (GREEN, 1)] = [(BLUE, 3), (RED, 5)] := by
    decide
  have hinit : buildSampler [(RED, 5), (BLUE, 3), (GREEN, 1)] =
      ⟨[3, 8], [BLUE, RED]⟩ := by
    rw [buildSampler, hfw]
    decide
  rw [hinit]
  constructor
  · decide
  · have h79 : WeightedRandomColors.next ⟨[3, 8], [BLUE, RED]⟩ (79 / 10 : ℚ) = .ok RED := by
      simp only [WeightedRandomColors.next, bisect_right]
      norm_num [List.countP_cons]
    rw [h79]
    decide

unseal List.mergeSort List.merge in
/-- Claim C3 amended: the filtered histogram keeps `{RED:5, BLUE:3}`,
sorted ascending by count to `[(BLUE,3), (RED,5)]`; the cumulative
totals are `[3, 8]`; a draw value of `4.9` resolves to RED, and a draw
value of `7.9` also resolves to RED (BLUE owns the interval `[0, 3)`,
RED owns `[3, 8)`). -/
theorem sampler_scenario_amended :
    filteredColorWeights [(RED, 5), (BLUE, 3), (GREEN, 1)] = [(BLUE, 3), (RED, 5)] ∧
    (buildSampler [(RED, 5), (BLUE, 3), (GREEN, 1)]).totals = [3, 8] ∧
    (buildSampler [(RED, 5), (BLUE, 3), (GREEN, 1)]).next (49 / 10 : ℚ) = .ok RED ∧
    (buildSampler [(RED, 5), (BLUE, 3), (GREEN, 1)]).next (79 / 10 : ℚ) = .ok RED := by
  have hfw : filteredColorWeights [(RED, 5), (BLUE, 3), (GREEN, 1)] = [(BLUE, 3), (RED, 5)] := by
    decide
  have hinit : buildSampler [(RED, 5), (BLUE, 3), (GREEN, 1)] =
      ⟨[3, 8], [BLUE, RED]⟩ := by
    rw [buildSampler, hfw]
    decide
  refine ⟨hfw, by rw [hinit], ?_, ?_⟩
  · rw [hinit]
    simp only [WeightedRandomColors.next, bisect_right]
    norm_num [List.countP_cons]
  · rw [hinit]
    simp only [WeightedRandomColors.next, bisect_right]
    norm_num [List.countP_cons]

/-- Claim C4 counterexample: `Painting.generate` does not always
terminate without error: on a 100×100 image with `num_strokes = 1`,
HORIZONTAL layout and `brush_size = 2`, `num_lines = 25` but
`strokes_per_line = 1 // 25 = 0`, so `w // strokes_per_line` raises
`ZeroDivisionError`. -/
theorem generate_divzero_eval :
    Painting.generate 0 100 100 ⟨[5], [RED]⟩ RED 1 Strategy.horizontal oG =
      .error .zeroDivisionError := by
  decide

/-- Claim C4 amended: `Painting.generate` returns a painting with
exactly `num_strokes` strokes for every layout strategy whenever every
color draw succeeds and the strategy's grid divisions have nonzero
divisors (`genPrecond`); the RANDOM layout needs no grid condition, and
HORIZONTAL/VERTICAL layouts cover all remainder cases where
`num_strokes` does not divide evenly into the grid.  Without
`genPrecond` the HORIZONTAL/VERTICAL branches raise
`ZeroDivisionError`. -/
theorem generate_total (ref w h : Nat) (weights : WeightedRandomColors) (canvas : Color)
    (num_strokes : Nat) (strategy : Strategy) (o : GenOracle)
    (hcol : ∀ i, i < num_strokes → ∃ c, weights.next (o.colorRnd i) = .ok c)
    (hpre : genPrecond w h num_strokes strategy o) :
    ∃ p, Painting.generate ref w h weights canvas num_strokes strategy o = .ok p ∧
      p.strokes.length = num_strokes ∧ p.ref = ref ∧ p.canvas = canvas := by
  cases strategy with
  | horizontal =>
    obtain ⟨hnl, hspl⟩ := hpre
    have hstep : ∀ x ∈ List.range num_strokes, ∃ y,
        (fun (i : Nat) =>
          let move_x := Int.fmod (i : Int) (strokesPerLineH h num_strokes o)
          let move_y := Int.fdiv (i : Int) (strokesPerLineH h num_strokes o)
          let start : Vector :=
            ⟨move_x * max (Int.fdiv (w : Int) (strokesPerLineH h num_strokes o) -
                2 * (brushOf o : Int)) 0 + (brushOf o : Int) * (2 * move_x + 1),
              (brushOf o : Int) * (2 * move_y + 1)⟩
          let fin := start.add ((Vector.mk 1 0).scale
            (max (Int.fdiv (w : Int) (strokesPerLineH h num_strokes o) -
              2 * (brushOf o : Int)) 0))
          match weights.next (o.colorRnd i) with
          | .error e => .error e
          | .ok c => .ok (Stroke.mk c (brushOf o) start fin)) x = Except.ok y := by
      intro x hx
      obtain ⟨c, hc⟩ := hcol x (List.mem_range.mp hx)
      exact ⟨_, by simp only [hc]; rfl⟩
    obtain ⟨ys, hys, hfa⟩ := mapME_ok_of_forall hstep
    refine ⟨⟨ref, canvas, ys⟩, ?_, ?_, rfl, rfl⟩
    · simp only [Painting.generate, if_neg hnl, if_neg hspl, hys]
    · simpa using hfa.length_eq.symm
  | vertical =>
    obtain ⟨hnl, hspl⟩ := hpre
    have hstep : ∀ x ∈ List.range num_strokes, ∃ y,
        (fun (i : Nat) =>
          let move_x := Int.fdiv (i : Int) (strokesPerLineV w num_strokes o)
          let move_y := Int.fmod (i : Int) (strokesPerLineV w num_strokes o)
          let start : Vector :=
            ⟨(brushOf o : Int) * (2 * move_x + 1),
              move_y * max (Int.fdiv (h : Int) (strokesPerLineV w num_strokes o) -
                2 * (brushOf o : Int)) 0 + (brushOf o : Int) * (2 * move_y + 1)⟩
          let fin := start.add ((Vector.mk 0 1).scale
            (max (Int.fdiv (h : Int) (strokesPerLineV w num_strokes o) -
              2 * (brushOf o : Int)) 0))
          match weights.next (o.colorRnd i) with
          | .error e => .error e
          | .ok c => .ok (Stroke.mk c (brushOf o) start fin)) x = Except.ok y := by
      intro x hx
      obtain ⟨c, hc⟩ := hcol x (List.mem_range.mp hx)
      exact ⟨_, by simp only [hc]; rfl⟩
    obtain ⟨ys, hys, hfa⟩ := mapME_ok_of_forall hstep
    refine ⟨⟨ref, canvas, ys⟩, ?_, ?_, rfl, rfl⟩
    · simp only [Painting.generate, if_neg hnl, if_neg hspl, hys]
    · simpa using hfa.length_eq.symm
  | srandom =>
    have hstep : ∀ x ∈ List.range num_strokes, ∃ y,
        (fun (i : Nat) =>
          let sx : Int := ((o.startX i) % (w + 1) : Nat)
          let sy : Int := ((o.startY i) % (h + 1) : Nat)
          let rand_x : Int := sx - (distOf o : Int) + ((o.offX i) % (2 * distOf o + 1) : Nat)
          let rand_y : Int := sy - (distOf o : Int) + ((o.offY i) % (2 * distOf o + 1) : Nat)
          let fin : Vector := ⟨min rand_x (w : Int), min rand_y (h : Int)⟩
          match weights.next (o.colorRnd i) with
          | .error e => .error e
          | .ok c => .ok (Stroke.mk c (brushOf o) ⟨sx, sy⟩ fin)) x = Except.ok y := by
      intro x hx
      obtain ⟨c, hc⟩ := hcol x (List.mem_range.mp hx)
      exact ⟨_, by simp only [hc]; rfl⟩
    obtain ⟨ys, hys, hfa⟩ := mapME_ok_of_forall hstep
    refine ⟨⟨ref, canvas, ys⟩, ?_, ?_, rfl, rfl⟩
    · simp only [Painting.generate, hys]
    · simpa using hfa.length_eq.symm

/-- Witness for C4 (amended) on a 100×100 image, HORIZONTAL layout,
`brush_size = 2`, `num_strokes = 30` (grid of 25 lines, 1 stroke per
line, 5 remainder strokes beyond the nominal grid). -/
theorem generate_total_witness :
    (∀ i, i < 30 → ∃ c, WeightedRandomColors.next ⟨[5], [RED]⟩ (oG.colorRnd i) = .ok c) ∧
    (numLinesH 100 oG ≠ 0 ∧ strokesPerLineH 100 30 oG ≠ 0) ∧
    (∃ p, Painting.generate 0 100 100 ⟨[5], [RED]⟩ RED 30 Strategy.horizontal oG = .ok p ∧
      p.strokes.length = 30 ∧ p.ref = 0 ∧ p.canvas = RED) :=
  ⟨fun i _ => ⟨RED, by simp only [oG]; decide⟩, ⟨by decide, by decide⟩,
    generate_total 0 100 100 ⟨[5], [RED]⟩ RED 30 Strategy.horizontal oG
      (fun i _ => ⟨RED, by simp only [oG]; decide⟩) ⟨by decide, by decide⟩⟩

/-- Claim C9 counterexample: constructing the engine from an empty
pixel list (whose filtered histogram is empty) fails with `IndexError`
(raised by `color_weights[-1]`), which is not the spec's `InvalidInput`
kind; and `WeightedRandomColors.__init__` itself accepts the empty
histogram without any error, producing empty arrays. -/
theorem init_empty_histogram_eval :
    GeneticPainting.init 0 1 1 1 1 0 1 0 [] (fun _ => Strategy.srandom) (fun _ => oG) =
      .error .indexError ∧
    PyError.indexError ≠ PyError.invalidInput ∧
    WeightedRandomColors.init [] = ⟨[], []⟩ := by
  refine ⟨?_, by decide, rfl⟩
  unfold GeneticPainting.init
  rw [if_neg (by norm_num)]
  simp [counterItems, firstOccs, filteredColorWeights]

/-- Claim C9 amended: whenever the filtered, sorted color histogram of
the pixel data is empty (and the derived `num_children` division does
not itself divide by zero), engine construction fails with
`IndexError` when it selects the most frequent color; the
`WeightedRandomColors` sampler itself never rejects an empty
histogram. -/
theorem init_empty_histogram (ref w h num_strokes pop_size : Nat)
    (mutation_chance fit_percentage lucky_percentage : ℚ)
    (image_data : List Color) (strats : Nat → Strategy) (gor : Nat → GenOracle)
    (hden : (pop_size : ℚ) * fit_percentage +
        (((⌈(pop_size : ℚ) * lucky_percentage⌉).toNat : Nat) : ℚ) ≠ 0)
    (hemp : filteredColorWeights (counterItems image_data) = []) :
    GeneticPainting.init ref w h num_strokes pop_size mutation_chance fit_percentage
        lucky_percentage image_data strats gor = .error .indexError ∧
    WeightedRandomColors.init [] = ⟨[], []⟩ := by
  refine ⟨?_, rfl⟩
  unfold GeneticPainting.init
  rw [if_neg hden]
  simp [hemp]

/-- Witness for C9 (amended) at a concrete configuration with an empty
pixel list. -/
theorem init_empty_histogram_witness :
    ((1 : ℚ) * 1 + (((⌈(1 : ℚ) * 0⌉).toNat : Nat) : ℚ) ≠ 0) ∧
    (filteredColorWeights (counterItems []) = []) ∧
    (GeneticPainting.init 0 2 2 1 1 0 1 0 [] (fun _ => Strategy.srandom) (fun _ => oG) =
        .error .indexError ∧
      WeightedRandomColors.init [] = ⟨[], []⟩) :=
  ⟨by norm_num, by simp [counterItems, firstOccs, filteredColorWeights],
    init_empty_histogram 0 2 2 1 1 0 1 0 [] (fun _ => Strategy.srandom) (fun _ => oG)
      (by norm_num) (by simp [counterItems, firstOccs, filteredColorWeights])⟩

/-- Specification of `applyPerm`: applying a position permutation
permutes the list. -/
theorem applyPerm_perm (idxs : List Nat) (l : List Stroke)
    (h : idxs.Perm (List.range l.length)) : (applyPerm idxs l).Perm l := by
  have h1 : (applyPerm idxs l).Perm ((List.range l.length).map (fun i => l.getD i default)) :=
    h.map _
  rwa [map_getD_range] at h1

/-- Claim C6: `mutate` preserves the multiset of strokes of every
genome (only the order may change), never touches `reference_id` or
canvas, and leaves every genome whose mutation roll does not fire
completely identical. -/
theorem mutate_spec (st : GPState) (roll : Nat → ℚ) (shuf : Nat → List Nat)
    (hshuf : ∀ k, k < st.population.length → roll k < st.mutation_chance →
      (shuf k).Perm (List.range ((st.population.getD k default).strokes.length))) :
    (GeneticPainting.mutate st roll shuf).population.length = st.population.length ∧
    ∀ k, k < st.population.length →
      ((GeneticPainting.mutate st roll shuf).population.getD k default).strokes.Perm
          ((st.population.getD k default).strokes) ∧
        ((GeneticPainting.mutate st roll shuf).population.getD k default).ref =
          (st.population.getD k default).ref ∧
        ((GeneticPainting.mutate st roll shuf).population.getD k default).canvas =
          (st.population.getD k default).canvas ∧
        (¬ roll k < st.mutation_chance →
          (GeneticPainting.mutate st roll shuf).population.getD k default =
            st.population.getD k default) := by
  have hlen : (GeneticPainting.mutate st roll shuf).population.length =
      st.population.length := by
    simp [GeneticPainting.mutate]
  refine ⟨hlen, ?_⟩
  intro k hk
  have hk2 : k < (GeneticPainting.mutate st roll shuf).population.length := by omega
  have hget : (GeneticPainting.mutate st roll shuf).population.getD k default =
      (if roll k < st.mutation_chance then
        { st.population.getD k default with
          strokes := applyPerm (shuf k) (st.population.getD k default).strokes }
       else st.population.getD k default) := by
    rw [List.getD_eq_getElem?_getD, List.getElem?_eq_getElem hk2]
    simp [GeneticPainting.mutate, List.getElem_map, hk]
  by_cases hr : roll k < st.mutation_chance
  · rw [hget, if_pos hr]
    exact ⟨applyPerm_perm _ _ (hshuf k hk hr), rfl, rfl, fun hn => absurd hr hn⟩
  · rw [hget, if_neg hr]
    exact ⟨List.Perm.refl _, rfl, rfl, fun _ => rfl⟩

/-- Witness for C6 at the one-painting state `stB` (mutation chance 1,
so the roll fires) with the identity shuffle oracle. -/
theorem mutate_spec_witness :
    (∀ k, k < stB.population.length → (0 : ℚ) < stB.mutation_chance →
      [0].Perm (List.range ((stB.population.getD k default).strokes.length))) ∧
    ((GeneticPainting.mutate stB (fun _ => 0) (fun _ => [0])).population.length =
        stB.population.length ∧
      ∀ k, k < stB.population.length →
        ((GeneticPainting.mutate stB (fun _ => 0) (fun _ => [0])).population.getD k
              default).strokes.Perm ((stB.population.getD k default).strokes) ∧
          ((GeneticPainting.mutate stB (fun _ => 0) (fun _ => [0])).population.getD k
              default).ref = (stB.population.getD k default).ref ∧
          ((GeneticPainting.mutate stB (fun _ => 0) (fun _ => [0])).population.getD k
              default).canvas = (stB.population.getD k default).canvas ∧
          (¬ (0 : ℚ) < stB.mutation_chance →
            (GeneticPainting.mutate stB (fun _ => 0) (fun _ => [0])).population.getD k
                default = stB.population.getD k default)) :=
  ⟨by decide, mutate_spec stB (fun _ => 0) (fun _ => [0]) (by decide)⟩

/-- Claim C1: `cull_the_herd` with strategy SURVIVORS sorts the scored
generation ascending by score, keeps the top
`winners = floor(pop_size * fit_percentage)` entries, appends
`lucky_few` entries drawn without replacement from the bottom
`winners`-sized slice of the sorted list (the lowest-scoring entries),
and returns exactly `winners + lucky_few` genomes.  (Hypotheses:
at least one winner, no more winners than scored entries, and the
without-replacement draw is well formed — `lucky_few ≤ winners`,
`lucky_few` distinct in-range positions.) -/
theorem cull_survivors_spec (st : GPState) (scored : List ScoredPainting)
    (luckyIdxs : List Nat) (strats : Nat → Strategy) (gor : Nat → GenOracle)
    (hw1 : 1 ≤ winnersOf st) (hwlen : winnersOf st ≤ scored.length)
    (hlf : st.lucky_few ≤ winnersOf st)
    (hlen : luckyIdxs.length = st.lucky_few) (hnd : luckyIdxs.Nodup)
    (hbound : ∀ i ∈ luckyIdxs, i < winnersOf st) :
    ∃ lucky, cull_the_herd st scored SURVIVORS luckyIdxs strats gor =
        .ok (((sortScored scored).drop (scored.length - winnersOf st) ++ lucky).map
          ScoredPainting.painting) ∧
      lucky = luckyIdxs.map
        (fun i => ((sortScored scored).take (winnersOf st)).getD i default) ∧
      lucky.length = st.lucky_few ∧
      (∀ x ∈ lucky, x ∈ (sortScored scored).take (winnersOf st)) ∧
      (((sortScored scored).drop (scored.length - winnersOf st) ++ lucky).map
          ScoredPainting.painting).length = winnersOf st + st.lucky_few ∧
      (sortScored scored).Perm scored ∧
      (sortScored scored).Pairwise (fun x y => x.score ≤ y.score) := by
  have hsplen : (sortScored scored).length = scored.length := by
    simp [sortScored]
  have hpool : ((sortScored scored).take (winnersOf st)).length = winnersOf st := by
    rw [List.length_take]
    omega
  have hsamp : pySample ((sortScored scored).take (winnersOf st)) st.lucky_few luckyIdxs =
      .ok (luckyIdxs.map
        (fun i => ((sortScored scored).take (winnersOf st)).getD i default)) := by
    rw [pySample, if_neg (by omega)]
  have hslice : sliceLastN (sortScored scored) (winnersOf st) =
      (sortScored scored).drop (scored.length - winnersOf st) := by
    rw [sliceLastN, if_neg (by omega), hsplen]
  refine ⟨luckyIdxs.map (fun i => ((sortScored scored).take (winnersOf st)).getD i default),
    ?_, rfl, ?_, ?_, ?_, ?_, ?_⟩
  · simp only [cull_the_herd, hsamp, hslice, if_true]
  · simp [hlen]
  · intro x hx
    obtain ⟨i, hi, rfl⟩ := List.mem_map.mp hx
    exact getD_mem_of_lt _ i (by rw [hpool]; exact hbound i hi)
  · rw [List.length_map, List.length_append, List.length_drop, hsplen, List.length_map, hlen]
    omega
  · simpa [sortScored] using
      List.mergeSort_perm scored (fun a b => decide (a.score ≤ b.score))
  · have hs := @List.sorted_mergeSort ScoredPainting
      (fun a b => decide (a.score ≤ b.score))
      (fun a b c hab hbc => by
        simp only [decide_eq_true_eq] at *
        exact le_trans hab hbc)
      (fun a b => by simpa using le_total a.score b.score)
      scored
    exact hs.imp (fun hab => by simpa using hab)

/-- Witness for C1 at `stC` (one winner, one lucky survivor drawn from
the bottom-1 slice) on a single scored painting. -/
theorem cull_survivors_spec_witness :
    (1 ≤ winnersOf stC ∧ winnersOf stC ≤ [ScoredPainting.mk 5 pA 1].length ∧
      stC.lucky_few ≤ winnersOf stC ∧ ([0] : List Nat).length = stC.lucky_few ∧
      ([0] : List Nat).Nodup ∧ ∀ i ∈ ([0] : List Nat), i < winnersOf stC) ∧
    (∃ lucky, cull_the_herd stC [ScoredPainting.mk 5 pA 1] SURVIVORS [0]
          (fun _ => Strategy.srandom) (fun _ => oG) =
        .ok (((sortScored [ScoredPainting.mk 5 pA 1]).drop
            ([ScoredPainting.mk 5 pA 1].length - winnersOf stC) ++ lucky).map
          ScoredPainting.painting) ∧
      lucky = ([0] : List Nat).map
        (fun i => ((sortScored [ScoredPainting.mk 5 pA 1]).take (winnersOf stC)).getD i
          default) ∧
      lucky.length = stC.lucky_few ∧
      (∀ x ∈ lucky, x ∈ (sortScored [ScoredPainting.mk 5 pA 1]).take (winnersOf stC)) ∧
      (((sortScored [ScoredPainting.mk 5 pA 1]).drop
            ([ScoredPainting.mk 5 pA 1].length - winnersOf stC) ++ lucky).map
          ScoredPainting.painting).length = winnersOf stC + stC.lucky_few ∧
      (sortScored [ScoredPainting.mk 5 pA 1]).Perm [ScoredPainting.mk 5 pA 1] ∧
      (sortScored [ScoredPainting.mk 5 pA 1]).Pairwise (fun x y => x.score ≤ y.score)) :=
  have hwc : winnersOf stC = 1 := by simp [winnersOf, stC, pyInt]
  ⟨⟨by rw [hwc], by rw [hwc]; decide, by rw [hwc]; decide, by decide, by decide,
      by rw [hwc]; decide⟩,
    cull_survivors_spec stC [ScoredPainting.mk 5 pA 1] [0]
      (fun _ => Strategy.srandom) (fun _ => oG)
      (by rw [hwc]) (by rw [hwc]; decide) (by rw [hwc]; decide) (by decide) (by decide)
      (by rw [hwc]; decide)⟩

/-- Claim C2: with at least two breeders (all sharing one stroke
count), `breed` with strategy SPAN or RANDOM succeeds, returns exactly
`pop_size` genomes, and the returned list becomes the engine's
population while the generation counter is incremented by one. -/
theorem breed_spec (st : GPState) (breeders : List Painting) (strategy : String)
    (o : BreedOracle) (hs : strategy = SPAN ∨ strategy = RANDOM)
    (hb : 2 ≤ breeders.length) (N : Nat) (hN : ∀ p ∈ breeders, p.strokes.length = N) :
    ∃ next, GeneticPainting.breed st breeders strategy o =
        ({ st with population := next, generation := st.generation + 1 }, .ok next) ∧
      next.length = st.pop_size := by
  have hpair : ∀ (k : Nat), ∃ y, randomPairChild breeders o k = Except.ok y := by
    intro k
    obtain ⟨p, q, hpq, hp, hq⟩ := sample2_mem breeders (o.pairA k) (o.pairB k) hb
    obtain ⟨c, hc, _⟩ := mul_spec p q (o.upCanvas k) (o.upStroke k)
      (by rw [hN p hp, hN q hq])
    exact ⟨c, by rw [randomPairChild, hpq]; exact hc⟩
  rcases hs with hs | hs
  · subst hs
    have hinner : ∀ i ∈ List.range (breeders.length / 2), ∃ ys,
        mapME (spanChild breeders o i) (List.range st.num_children) = .ok ys := by
      intro i hi
      have hi2 : i < breeders.length :=
        lt_of_lt_of_le (List.mem_range.mp hi) (Nat.div_le_self _ _)
      have hj2 : breeders.length - (i + 1) < breeders.length := by omega
      have hstep : ∀ c ∈ List.range st.num_children, ∃ y,
          spanChild breeders o i c = .ok y := by
        intro c _
        obtain ⟨y, hy, _⟩ := mul_spec (breeders.getD i default)
          (breeders.getD (breeders.length - (i + 1)) default)
          (o.spanCanvas i c) (o.spanStroke i c)
          (by rw [hN _ (getD_mem_of_lt _ _ hi2), hN _ (getD_mem_of_lt _ _ hj2)])
        exact ⟨y, hy⟩
      obtain ⟨ys, hys, _⟩ := mapME_ok_of_forall hstep
      exact ⟨ys, hys⟩
    obtain ⟨chunks, hchunks, _⟩ := mapME_ok_of_forall hinner
    obtain ⟨topups, htop, hfa2⟩ :=
      mapME_ok_of_forall (l := List.range (st.pop_size - chunks.flatten.length))
        (fun k _ => hpair k)
    have htoplen : topups.length = st.pop_size - chunks.flatten.length := by
      simpa using hfa2.length_eq.symm
    refine ⟨(chunks.flatten ++ topups).take st.pop_size, ?_, ?_⟩
    · simp only [GeneticPainting.breed, if_true]
      simp only [hchunks, htop]
      rw [if_neg (by decide : ¬(SPAN = RANDOM))]
    · rw [List.length_take, List.length_append]
      omega
  · subst hs
    obtain ⟨next, hnext, hfa⟩ :=
      mapME_ok_of_forall (l := List.range st.pop_size) (fun k _ => hpair k)
    refine ⟨next, ?_, by simpa using hfa.length_eq.symm⟩
    simp only [GeneticPainting.breed, if_true]
    simp only [hnext]

/-- Witness for C2: SPAN breeding of the two one-stroke paintings
`[pA, pB]` with `pop_size = 2`. -/
theorem breed_spec_witness :
    (SPAN = SPAN ∨ SPAN = RANDOM) ∧ 2 ≤ [pA, pB].length ∧
    (∀ p ∈ [pA, pB], p.strokes.length = 1) ∧
    (∃ next, GeneticPainting.breed stB [pA, pB] SPAN oW =
        ({ stB with population := next, generation := stB.generation + 1 }, .ok next) ∧
      next.length = stB.pop_size) :=
  ⟨Or.inl rfl, by decide, by decide,
    breed_spec stB [pA, pB] SPAN oW (Or.inl rfl) (by decide) 1 (by decide)⟩
